import Mathlib

/-
Verification of the live-sequence (LiveArray) core of the APL client library.

The repository ships only the TypeScript declaration of `LiveArray`
(src/unnamed/part_000): the signatures and doc comments of `empty`, `clear`,
`size`, `at`, `insert`, `insertRange`, `remove`, `update`, `updateRange`,
`push_back`, `push_backRange`.  The implementation (bounds validation,
ChangeRecord construction, observer registry, notification fan-out) is not in
the repository sources, so every behavioral definition below is modelled from
the specification document, faithful to its §4 operation table and §4.2/§4.3
notification and attach/detach protocols.  Elements are an opaque type `α`;
positions are `Nat` (the declared API takes non-negative positions validated
against the current size).
-/

/-- Modelled from the spec: the `ChangeRecord` value type (§3), one of five
kinds — `Reset(full-contents)`, `Insert(position, values)`,
`Remove(position, count)`, `Update(position, values)`, `Clear()`.  The
implementation of this type is absent from src (only the TypeScript
declaration surface exists). -/
inductive ChangeRecord (α : Type) where
  | Reset (contents : List α)
  | Insert (position : Nat) (values : List α)
  | Remove (position : Nat) (count : Nat)
  | Update (position : Nat) (values : List α)
  | Clear
deriving DecidableEq, Repr

namespace LiveArray

variable {α : Type}

/-- Result of one mutation primitive: success flag, resulting elements, and
the ChangeRecord emitted on success (`none` when the mutation was rejected). -/
abbrev MutResult (α : Type) := Bool × List α × Option (ChangeRecord α)

/-- Modelled from the spec: `size()` returns the number of elements. -/
def size (s : List α) : Nat := s.length

/-- Modelled from the spec: `empty()` is true iff the array has no elements. -/
def empty (s : List α) : Bool := s.length == 0

/-- Modelled from the spec: `at(position)` returns the element at `position`,
or an absent sentinel (here `none`) when `position` is outside `[0, size)`.
The declared `LiveArray.at` implementation is absent from src. -/
def at' (s : List α) (position : Nat) : Option α := s[position]?

/-- Modelled from the spec: `insert(position, value)` — precondition
`0 ≤ position ≤ size`; inserts one element before `position`, shifting
successors right; emits `Insert(position, [value])` on success.  The
`LiveArray.insert` implementation is absent from src. -/
def insert (s : List α) (position : Nat) (value : α) : MutResult α :=
  if position ≤ s.length then
    (true, s.take position ++ value :: s.drop position,
      some (ChangeRecord.Insert position [value]))
  else (false, s, none)

/-- Modelled from the spec: `insertRange(position, values)` — precondition
`0 ≤ position ≤ size` and `values` non-empty; inserts all values as a
contiguous block at `position`, preserving their relative order.  The
`LiveArray.insertRange` implementation is absent from src. -/
def insertRange (s : List α) (position : Nat) (values : List α) : MutResult α :=
  if 0 < values.length ∧ position ≤ s.length then
    (true, s.take position ++ values ++ s.drop position,
      some (ChangeRecord.Insert position values))
  else (false, s, none)

/-- Modelled from the spec: `remove(position, count)` — precondition
`count ≥ 1` and `position + count ≤ size`; removes `count` contiguous
elements starting at `position`.  The `LiveArray.remove` implementation is
absent from src. -/
def remove (s : List α) (position count : Nat) : MutResult α :=
  if 1 ≤ count ∧ position + count ≤ s.length then
    (true, s.take position ++ s.drop (position + count),
      some (ChangeRecord.Remove position count))
  else (false, s, none)

/-- Modelled from the spec: `update(position, value)` — precondition
`0 ≤ position < size`; replaces the element at `position`.  The
`LiveArray.update` implementation is absent from src. -/
def update (s : List α) (position : Nat) (value : α) : MutResult α :=
  if position < s.length then
    (true, s.set position value, some (ChangeRecord.Update position [value]))
  else (false, s, none)

/-- Modelled from the spec: `updateRange(position, values)` — precondition
`values` non-empty and `position + len(values) ≤ size`; replaces
`len(values)` contiguous elements starting at `position`.  The
`LiveArray.updateRange` implementation is absent from src. -/
def updateRange (s : List α) (position : Nat) (values : List α) : MutResult α :=
  if 0 < values.length ∧ position + values.length ≤ s.length then
    (true, s.take position ++ values ++ s.drop (position + values.length),
      some (ChangeRecord.Update position values))
  else (false, s, none)

/-- Modelled from the spec: `push_back(value)` — unconditional append of one
element at the end; emits an append record `Insert(size, [value])` (§8).  The
`LiveArray.push_back` implementation is absent from src. -/
def push_back (s : List α) (value : α) : MutResult α :=
  (true, s ++ [value], some (ChangeRecord.Insert s.length [value]))

/-- Modelled from the spec: `push_backRange(values)` — precondition `values`
non-empty; appends all values preserving order.  The
`LiveArray.push_backRange` implementation is absent from src. -/
def push_backRange (s : List α) (values : List α) : MutResult α :=
  if 0 < values.length then
    (true, s ++ values, some (ChangeRecord.Insert s.length values))
  else (false, s, none)

/-- Modelled from the spec: `clear()` — unconditionally removes all elements
and always emits `Clear()` regardless of prior size (§4.2).  The
`LiveArray.clear` implementation is absent from src. -/
def clear (_s : List α) : MutResult α :=
  (true, ([] : List α), some ChangeRecord.Clear)

/-- A mutation request against the store: one constructor per mutation
primitive of the declared API. -/
inductive Mut (α : Type) where
  | insert (position : Nat) (value : α)
  | insertRange (position : Nat) (values : List α)
  | remove (position count : Nat)
  | update (position : Nat) (value : α)
  | updateRange (position : Nat) (values : List α)
  | push_back (value : α)
  | push_backRange (values : List α)
  | clear
deriving Repr

/-- Dispatch a mutation request to the corresponding store primitive. -/
def step (s : List α) : Mut α → MutResult α
  | Mut.insert p v => insert s p v
  | Mut.insertRange p vs => insertRange s p vs
  | Mut.remove p c => remove s p c
  | Mut.update p v => update s p v
  | Mut.updateRange p vs => updateRange s p vs
  | Mut.push_back v => push_back s v
  | Mut.push_backRange vs => push_backRange s vs
  | Mut.clear => clear s

/-- Modelled from the spec: replaying one self-contained ChangeRecord onto an
observer's projection (§3: applying the record to a synchronized projection
yields the same result as the original mutation on the authoritative
sequence). -/
def applyRecord (s : List α) : ChangeRecord α → List α
  | ChangeRecord.Reset contents => contents
  | ChangeRecord.Insert p vs => s.take p ++ vs ++ s.drop p
  | ChangeRecord.Remove p c => s.take p ++ s.drop (p + c)
  | ChangeRecord.Update p vs => s.take p ++ vs ++ s.drop (p + vs.length)
  | ChangeRecord.Clear => []

/-- Modelled from the spec: the `LiveSequence` facade (§2, §4.4) — the
authoritative `elements` plus the attached-observer registry.  Each observer
is a `(handle, received-records)` pair; `nextHandle` is the next fresh
handle.  The observer registry and notification router are absent from src
(only the TypeScript declaration surface exists). -/
structure LiveSequence (α : Type) where
  elements : List α
  observers : List (Nat × List (ChangeRecord α))
  nextHandle : Nat
deriving DecidableEq, Repr

/-- Modelled from the spec: construction with an optional initial ordered
collection (§4.4); no observers are attached yet. -/
def create (init : List α) : LiveSequence α :=
  { elements := init, observers := [], nextHandle := 0 }

/-- Modelled from the spec: the notification router (§4.2) — deliver one
ChangeRecord to every currently attached observer, appending it to each
observer's ordered stream. -/
def deliver (r : ChangeRecord α) (ls : LiveSequence α) : LiveSequence α :=
  { ls with observers := ls.observers.map fun ob => (ob.1, ob.2 ++ [r]) }

/-- Modelled from the spec: `attach(observer)` (§4.3) — registers a fresh
observer handle and immediately delivers a synthetic
`Reset(full-contents-snapshot)` record to that observer only. -/
def attach (ls : LiveSequence α) : Nat × LiveSequence α :=
  (ls.nextHandle,
   { ls with
     observers :=
       ls.observers ++ [(ls.nextHandle, [ChangeRecord.Reset ls.elements])],
     nextHandle := ls.nextHandle + 1 })

/-- Modelled from the spec: `detach(observer)` (§4.3) — removes the observer
from the set; detaching an unknown handle leaves the set unchanged. -/
def detach (h : Nat) (ls : LiveSequence α) : LiveSequence α :=
  { ls with observers := ls.observers.filter fun ob => ob.1 != h }

/-- Modelled from the spec: destruction of a LiveSequence (§4.4) invalidates
all observer handles, so any subsequent `detach` on them is a safe no-op. -/
def destroy (ls : LiveSequence α) : LiveSequence α :=
  { ls with observers := [] }

/-- The ordered record stream received so far by the observer with handle
`h`, or `none` if no such observer is attached. -/
def received (h : Nat) (ls : LiveSequence α) : Option (List (ChangeRecord α)) :=
  (ls.observers.find? fun ob => ob.1 == h).map Prod.snd

/-- Modelled from the spec: one mutation against the LiveSequence — validate
and apply on the store, then fan the emitted ChangeRecord (if any) out to
every attached observer synchronously (§2 data flow, §4.2). -/
def applyMut (ls : LiveSequence α) (m : Mut α) : LiveSequence α :=
  match step ls.elements m with
  | (_, els, some r) => deliver r { ls with elements := els }
  | (_, els, none) => { ls with elements := els }

/-- Apply a list of mutation requests in order to a LiveSequence. -/
def runMuts (ls : LiveSequence α) : List (Mut α) → LiveSequence α
  | [] => ls
  | m :: ms => runMuts (applyMut ls m) ms

/-- Apply a list of mutation requests in order to the bare store. -/
def runStore (s : List α) : List (Mut α) → List α
  | [] => s
  | m :: ms => runStore (step s m).2.1 ms

/-- The ChangeRecords emitted by a list of mutation requests, in mutation
order (rejected mutations emit nothing). -/
def records (s : List α) : List (Mut α) → List (ChangeRecord α)
  | [] => []
  | m :: ms =>
    match (step s m).2.2 with
    | some r => r :: records (step s m).2.1 ms
    | none => records (step s m).2.1 ms

/-- Registry well-formedness: every attached handle was issued before the
next fresh handle, so freshly issued handles never collide. -/
def Wf (ls : LiveSequence α) : Prop :=
  ∀ ob ∈ ls.observers, ob.1 < ls.nextHandle

instance (ls : LiveSequence Nat) : Decidable (Wf ls) := by
  unfold Wf; infer_instance

end LiveArray

namespace LiveArray

variable {α : Type}

/-- C1: every mutation operation given an argument violating its
precondition — an out-of-range position, a count or values-length making the
end index exceed the size, a zero count, or an empty values collection for a
range operation — returns `false`, leaves the elements completely unchanged
(no partial application), and emits no ChangeRecord. -/
theorem failed_mutation_is_noop (s : List α) (p c : Nat) (v : α) (vs : List α) :
    (s.length < p → insert s p v = (false, s, none))
    ∧ (s.length < p ∨ vs = [] → insertRange s p vs = (false, s, none))
    ∧ (c = 0 ∨ s.length < p + c → remove s p c = (false, s, none))
    ∧ (s.length ≤ p → update s p v = (false, s, none))
    ∧ (vs = [] ∨ s.length < p + vs.length → updateRange s p vs = (false, s, none))
    ∧ (vs = [] → push_backRange s vs = (false, s, none)) := by
  refine ⟨fun h => ?_, fun h => ?_, fun h => ?_, fun h => ?_, fun h => ?_,
    fun h => ?_⟩
  · rw [insert, if_neg (by omega)]
  · rw [insertRange, if_neg]
    rintro ⟨h1, h2⟩
    rcases h with h | h
    · omega
    · rw [h] at h1; exact absurd h1 (by simp)
  · rw [remove, if_neg (by omega)]
  · rw [update, if_neg (by omega)]
  · rw [updateRange, if_neg]
    rintro ⟨h1, h2⟩
    rcases h with h | h
    · rw [h] at h1; exact absurd h1 (by simp)
    · omega
  · rw [push_backRange, if_neg (by simp [h])]

/-- Witness for C1 at concrete inputs. -/
theorem failed_mutation_is_noop_witness :
    insert [10, 20] 5 7 = ((false, [10, 20], none) : MutResult Nat)
    ∧ insertRange [10, 20] 0 ([] : List Nat) = (false, [10, 20], none)
    ∧ remove [10, 20] 0 0 = ((false, [10, 20], none) : MutResult Nat)
    ∧ update [10, 20] 2 7 = ((false, [10, 20], none) : MutResult Nat)
    ∧ updateRange [10, 20] 0 ([] : List Nat) = (false, [10, 20], none)
    ∧ push_backRange [10, 20] ([] : List Nat) = (false, [10, 20], none) := by
  have h := failed_mutation_is_noop [10, 20] 5 0 7 ([] : List Nat)
  have h2 := failed_mutation_is_noop [10, 20] 0 0 7 ([] : List Nat)
  exact ⟨h.1 (by decide), h2.2.1 (Or.inr rfl), h2.2.2.1 (Or.inl rfl),
    (failed_mutation_is_noop [10, 20] 2 0 7 ([] : List Nat)).2.2.2.1 (by decide),
    h2.2.2.2.2.1 (Or.inl rfl), h2.2.2.2.2.2 rfl⟩

/-- C2: for every sequence and every position `p` with `p ≤ size`,
`insert(p, v)` returns true, a subsequent `at(p)` returns `v`, and the size
increases by exactly 1. -/
theorem insert_valid_at_size (s : List α) (p : Nat) (v : α) (hp : p ≤ s.length) :
    (insert s p v).1 = true
    ∧ at' (insert s p v).2.1 p = some v
    ∧ size (insert s p v).2.1 = size s + 1 := by
  refine ⟨by simp [insert, hp], ?_, ?_⟩
  · rw [insert, if_pos hp, at',
      List.getElem?_append_right (by simp [Nat.min_eq_left hp])]
    simp [Nat.min_eq_left hp]
  · simp [insert, hp, size]
    omega

/-- Witness for C2 at a concrete input. -/
theorem insert_valid_at_size_witness :
    (insert [10, 20, 30] 1 99).1 = true
    ∧ at' (insert [10, 20, 30] 1 99).2.1 1 = some 99
    ∧ size (insert [10, 20, 30] 1 99).2.1 = size [10, 20, 30] + 1 :=
  insert_valid_at_size [10, 20, 30] 1 99 (by decide)

/-- C3: for every sequence and every `p`, `c` with `c ≥ 1` and
`p + c ≤ size`, `remove(p, c)` returns true, the size decreases by exactly
`c`, elements at pre-removal positions below `p` keep their positions and
values, and each element at pre-removal position `i ≥ p + c` moves to
position `i - c` with its value unchanged. -/
theorem remove_valid_reindex (s : List α) (p c : Nat) (hc : 1 ≤ c)
    (hpc : p + c ≤ s.length) :
    (remove s p c).1 = true
    ∧ size (remove s p c).2.1 = size s - c
    ∧ (∀ i, i < p → at' (remove s p c).2.1 i = at' s i)
    ∧ (∀ i, p + c ≤ i → at' (remove s p c).2.1 (i - c) = at' s i) := by
  refine ⟨by simp [remove, hc, hpc], ?_, fun i hi => ?_, fun i hi => ?_⟩
  · simp [remove, hc, hpc, size]
    omega
  · rw [remove, if_pos ⟨hc, hpc⟩, at', at',
      List.getElem?_append_left (by simp; omega)]
    simp [List.getElem?_take, hi]
  · rw [remove, if_pos ⟨hc, hpc⟩, at', at',
      List.getElem?_append_right (by simp; omega),
      List.getElem?_drop]
    congr 1
    simp
    omega

/-- Witness for C3 at a concrete input. -/
theorem remove_valid_reindex_witness :
    (remove [10, 20, 30, 40] 1 2).1 = true
    ∧ size (remove [10, 20, 30, 40] 1 2).2.1 = size [10, 20, 30, 40] - 2
    ∧ at' (remove [10, 20, 30, 40] 1 2).2.1 0 = at' [10, 20, 30, 40] 0
    ∧ at' (remove [10, 20, 30, 40] 1 2).2.1 (3 - 2) = at' [10, 20, 30, 40] 3 := by
  have h := remove_valid_reindex [10, 20, 30, 40] 1 2 (by decide) (by decide)
  exact ⟨h.1, h.2.1, h.2.2.1 0 (by decide), h.2.2.2 3 (by decide)⟩

/-- C4: for every sequence and non-empty `vs` with `p + len(vs) ≤ size`,
`updateRange(p, vs)` replaces exactly the elements at positions
`p .. p + len(vs) - 1` with `vs` in order; every element at any other
position, and the size, is unchanged. -/
theorem updateRange_frame (s : List α) (p : Nat) (vs : List α)
    (hne : 0 < vs.length) (hpc : p + vs.length ≤ s.length) :
    (updateRange s p vs).1 = true
    ∧ size (updateRange s p vs).2.1 = size s
    ∧ (∀ i, i < vs.length → at' (updateRange s p vs).2.1 (p + i) = vs[i]?)
    ∧ (∀ i, i < p ∨ p + vs.length ≤ i →
        at' (updateRange s p vs).2.1 i = at' s i) := by
  refine ⟨by simp [updateRange, hne, hpc], ?_, fun i hi => ?_, fun i hi => ?_⟩
  · simp [updateRange, hne, hpc, size]
    omega
  · rw [updateRange, if_pos ⟨hne, hpc⟩, at', List.append_assoc,
      List.getElem?_append_right (by simp <;> omega),
      List.getElem?_append_left (by simp <;> omega)]
    congr 1
    simp
    omega
  · rcases hi with hi | hi
    · rw [updateRange, if_pos ⟨hne, hpc⟩, at', at', List.append_assoc,
        List.getElem?_append_left (by simp <;> omega)]
      simp [List.getElem?_take, hi]
    · rw [updateRange, if_pos ⟨hne, hpc⟩, at', at', List.append_assoc,
        List.getElem?_append_right (by simp <;> omega),
        List.getElem?_append_right (by simp <;> omega),
        List.getElem?_drop]
      congr 1
      simp
      omega

/-- Witness for C4 at a concrete input. -/
theorem updateRange_frame_witness :
    (updateRange [10, 20, 30, 40] 1 [7, 8]).1 = true
    ∧ size (updateRange [10, 20, 30, 40] 1 [7, 8]).2.1 = size [10, 20, 30, 40]
    ∧ at' (updateRange [10, 20, 30, 40] 1 [7, 8]).2.1 (1 + 0) = [7, 8][0]?
    ∧ at' (updateRange [10, 20, 30, 40] 1 [7, 8]).2.1 3 = at' [10, 20, 30, 40] 3 := by
  have h := updateRange_frame [10, 20, 30, 40] 1 [7, 8] (by decide) (by decide)
  exact ⟨h.1, h.2.1, h.2.2.1 0 (by decide), h.2.2.2 3 (Or.inr (by decide))⟩

/-- C5: `insertRange`, `updateRange` and `push_backRange` given an empty
values collection return false, leave the sequence unchanged and emit no
ChangeRecord, while single-element `insert` and `update` always apply when
the position is valid. -/
theorem empty_range_rejected (s : List α) (p : Nat) (v : α) :
    insertRange s p ([] : List α) = (false, s, none)
    ∧ updateRange s p ([] : List α) = (false, s, none)
    ∧ push_backRange s ([] : List α) = (false, s, none)
    ∧ (p ≤ s.length → (insert s p v).1 = true)
    ∧ (p < s.length → (update s p v).1 = true) :=
  ⟨by simp [insertRange], by simp [updateRange], by simp [push_backRange],
    fun h => by simp [insert, h], fun h => by simp [update, h]⟩

/-- Witness for C5 at concrete inputs. -/
theorem empty_range_rejected_witness :
    insertRange [10, 20] 1 ([] : List Nat) = (false, [10, 20], none)
    ∧ (insert [10, 20] 2 (7 : Nat)).1 = true
    ∧ (update [10, 20] 1 (7 : Nat)).1 = true := by
  have h := empty_range_rejected [10, 20] 1 (7 : Nat)
  exact ⟨h.1, (empty_range_rejected [10, 20] 2 (7 : Nat)).2.2.2.1 (by decide),
    h.2.2.2.2 (by decide)⟩

/-- C9: for every state and every mutation that emits a ChangeRecord,
replaying that record on a projection equal to the state immediately before
the mutation yields exactly the state immediately after the mutation. -/
theorem record_replay_faithful (s : List α) (m : Mut α) (r : ChangeRecord α)
    (hr : (step s m).2.2 = some r) :
    applyRecord s r = (step s m).2.1 := by
  cases m with
  | insert p v =>
    rw [step, insert] at hr ⊢
    split at hr
    · next hcond =>
      rw [if_pos hcond]
      cases hr
      simp [applyRecord]
    · simp at hr
  | insertRange p vs =>
    rw [step, insertRange] at hr ⊢
    split at hr
    · next hcond =>
      rw [if_pos hcond]
      cases hr
      simp [applyRecord]
    · simp at hr
  | remove p c =>
    rw [step, remove] at hr ⊢
    split at hr
    · next hcond =>
      rw [if_pos hcond]
      cases hr
      simp [applyRecord]
    · simp at hr
  | update p v =>
    rw [step, update] at hr ⊢
    split at hr
    · next hcond =>
      rw [if_pos hcond]
      cases hr
      simp [applyRecord, List.set_eq_take_cons_drop v hcond]
    · simp at hr
  | updateRange p vs =>
    rw [step, updateRange] at hr ⊢
    split at hr
    · next hcond =>
      rw [if_pos hcond]
      cases hr
      simp [applyRecord]
    · simp at hr
  | push_back v =>
    rw [step, push_back] at hr
    cases hr
    simp [step, push_back, applyRecord, List.take_length, List.drop_length]
  | push_backRange vs =>
    rw [step, push_backRange] at hr ⊢
    split at hr
    · next hcond =>
      rw [if_pos hcond]
      cases hr
      simp [applyRecord, List.take_length, List.drop_length]
    · simp at hr
  | clear =>
    rw [step, clear] at hr
    cases hr
    simp [step, clear, applyRecord]

/-- Witness for C9 at a concrete input. -/
theorem record_replay_faithful_witness :
    applyRecord [10, 20, 30] (ChangeRecord.Remove 1 1)
      = (step [10, 20, 30] (Mut.remove 1 1)).2.1 :=
  record_replay_faithful [10, 20, 30] (Mut.remove 1 1)
    (ChangeRecord.Remove 1 1) (by decide)

/-- Looking up a key in an association list after a value-only map. -/
theorem find_map_key (l : List (Nat × List (ChangeRecord α))) (h : Nat)
    (f : Nat × List (ChangeRecord α) → List (ChangeRecord α)) :
    ((l.map fun ob => (ob.1, f ob)).find? fun ob => ob.1 == h)
      = (l.find? fun ob => ob.1 == h).map fun ob => (ob.1, f ob) := by
  induction l with
  | nil => rfl
  | cons x xs ih =>
    by_cases hx : x.1 = h
    · simp [List.find?_cons, hx]
    · simp only [List.map_cons]
      rw [List.find?_cons_of_neg _ (by simpa using hx),
        List.find?_cons_of_neg _ (by simpa using hx)]
      exact ih

/-- Delivery appends the record to every attached observer's stream and to
nothing else. -/
theorem received_deliver (h : Nat) (r : ChangeRecord α) (ls : LiveSequence α) :
    received h (deliver r ls) = (received h ls).map fun rs => rs ++ [r] := by
  unfold received deliver
  simp only
  rw [find_map_key]
  cases ls.observers.find? fun ob => ob.1 == h <;> simp

/-- One LiveSequence mutation leaves the elements as the store does. -/
theorem elements_applyMut (ls : LiveSequence α) (m : Mut α) :
    (applyMut ls m).elements = (step ls.elements m).2.1 := by
  unfold applyMut
  rcases hst : step ls.elements m with ⟨b, els, r?⟩
  cases r? <;> rfl

/-- One LiveSequence mutation appends exactly the emitted record (if any) to
each attached observer's stream. -/
theorem received_applyMut (h : Nat) (ls : LiveSequence α) (m : Mut α) :
    received h (applyMut ls m)
      = (received h ls).map fun rs => rs ++ ((step ls.elements m).2.2).toList := by
  unfold applyMut
  rcases hst : step ls.elements m with ⟨b, els, r?⟩
  cases r? with
  | some r =>
    rw [received_deliver]
    change (received h ls).map (fun rs => rs ++ [r])
      = (received h ls).map fun rs => rs ++ (some r).toList
    cases received h ls <;> rfl
  | none =>
    change received h ls
      = (received h ls).map fun rs => rs ++ (none : Option (ChangeRecord α)).toList
    cases received h ls <;> simp

/-- Running mutations leaves the LiveSequence elements as the store does. -/
theorem elements_runMuts (ls : LiveSequence α) (ms : List (Mut α)) :
    (runMuts ls ms).elements = runStore ls.elements ms := by
  induction ms generalizing ls with
  | nil => rfl
  | cons m ms ih => rw [runMuts, ih, elements_applyMut, runStore]

/-- Running a list of mutations appends exactly the emitted records, in
mutation order, to each attached observer's stream. -/
theorem received_runMuts (h : Nat) (ls : LiveSequence α) (ms : List (Mut α)) :
    received h (runMuts ls ms)
      = (received h ls).map fun rs => rs ++ records ls.elements ms := by
  induction ms generalizing ls with
  | nil =>
    change received h ls
      = (received h ls).map fun rs => rs ++ ([] : List (ChangeRecord α))
    cases received h ls <;> simp
  | cons m ms ih =>
    rw [runMuts, ih, received_applyMut, elements_applyMut]
    rcases hst : step ls.elements m with ⟨b, els, r?⟩
    cases r? <;> cases received h ls <;> simp [records, hst]

/-- Delivery preserves registry well-formedness. -/
theorem wf_deliver (r : ChangeRecord α) (ls : LiveSequence α) (hwf : Wf ls) :
    Wf (deliver r ls) := by
  intro ob hob
  simp only [deliver, List.mem_map] at hob
  obtain ⟨a, ha, rfl⟩ := hob
  exact hwf a ha

/-- One mutation preserves registry well-formedness. -/
theorem wf_applyMut (ls : LiveSequence α) (m : Mut α) (hwf : Wf ls) :
    Wf (applyMut ls m) := by
  unfold applyMut
  rcases hst : step ls.elements m with ⟨b, els, r?⟩
  cases r? with
  | some r => exact wf_deliver r _ hwf
  | none => exact hwf

/-- Running mutations preserves registry well-formedness. -/
theorem wf_runMuts (ls : LiveSequence α) (ms : List (Mut α)) (hwf : Wf ls) :
    Wf (runMuts ls ms) := by
  induction ms generalizing ls with
  | nil => exact hwf
  | cons m ms ih => exact ih (applyMut ls m) (wf_applyMut ls m hwf)

/-- A freshly attached observer starts with exactly the Reset snapshot. -/
theorem received_attach_self (ls : LiveSequence α) (hwf : Wf ls) :
    received (attach ls).1 (attach ls).2
      = some [ChangeRecord.Reset ls.elements] := by
  unfold received attach
  simp only
  rw [List.find?_append]
  have hnone : (ls.observers.find? fun ob => ob.1 == ls.nextHandle) = none := by
    rw [List.find?_eq_none]
    intro x hx
    simpa using Nat.ne_of_lt (hwf x hx)
  rw [hnone]
  simp

/-- Attaching delivers the Reset snapshot to the new observer only: every
other handle's stream is untouched. -/
theorem received_attach_other (ls : LiveSequence α) (h2 : Nat)
    (hne : h2 ≠ (attach ls).1) :
    received h2 (attach ls).2 = received h2 ls := by
  unfold received attach
  simp only
  rw [List.find?_append]
  have hnone :
      (([(ls.nextHandle, [ChangeRecord.Reset ls.elements])]).find?
        fun ob => ob.1 == h2) = none :=
    List.find?_cons_of_neg _ (by simpa using fun he => hne he.symm)
  rw [hnone]
  cases ls.observers.find? fun ob => ob.1 == h2 <;> rfl

/-- C10: `insert(size, v)` succeeds (position `size` is within the valid
range) and produces the same resulting contents as `push_back(v)`:
insertion at the end is equivalent to append. -/
theorem insert_at_end_eq_push_back (s : List α) (v : α) :
    (insert s s.length v).1 = true
    ∧ (insert s s.length v).2.1 = (push_back s v).2.1 := by
  constructor
  · simp [insert]
  · simp [insert, push_back, List.take_length, List.drop_length]

/-- C6: `clear()` delivers exactly one `Clear()` record to every attached
observer, whatever the current state — in particular the notification is
never suppressed when the sequence is already empty, since the emission does
not consult the elements at all. -/
theorem clear_always_notifies (ls : LiveSequence α) (h : Nat)
    (rs : List (ChangeRecord α)) (hr : received h ls = some rs) :
    received h (applyMut ls Mut.clear) = some (rs ++ [ChangeRecord.Clear]) := by
  rw [received_applyMut, hr]
  rfl

/-- Witness for C6: clearing an already-empty sequence still delivers the
Clear record to the attached observer. -/
theorem clear_always_notifies_witness :
    received 0 (applyMut (attach (create ([] : List Nat))).2 Mut.clear)
      = some ([ChangeRecord.Reset []] ++ [ChangeRecord.Clear]) :=
  clear_always_notifies (attach (create ([] : List Nat))).2 0
    [ChangeRecord.Reset []] (by decide)

/-- C7: an observer attached after a first batch of mutations receives
exactly one Reset record whose contents are the sequence state after that
batch (which agrees with the store semantics), delivered to it only (all
other handles' streams are untouched by the attach), and thereafter receives
exactly the records of the subsequent mutations in mutation order and
nothing from before its attach point. -/
theorem observer_attach_stream (ls : LiveSequence α) (hwf : Wf ls)
    (ms1 ms2 : List (Mut α)) :
    received (attach (runMuts ls ms1)).1 (runMuts (attach (runMuts ls ms1)).2 ms2)
      = some (ChangeRecord.Reset (runMuts ls ms1).elements
          :: records (runMuts ls ms1).elements ms2)
    ∧ (runMuts ls ms1).elements = runStore ls.elements ms1
    ∧ (∀ h2, h2 ≠ (attach (runMuts ls ms1)).1 →
        received h2 (attach (runMuts ls ms1)).2 = received h2 (runMuts ls ms1)) := by
  have hwf1 : Wf (runMuts ls ms1) := wf_runMuts ls ms1 hwf
  refine ⟨?_, elements_runMuts ls ms1,
    fun h2 hne => received_attach_other _ h2 hne⟩
  rw [received_runMuts, received_attach_self _ hwf1]
  have hsame : (attach (runMuts ls ms1)).2.elements = (runMuts ls ms1).elements := rfl
  rw [hsame]
  simp

/-- Witness for C7 at a concrete scenario: create `[1]`, push 2, attach,
then remove one element; the observer sees `Reset [1, 2]` followed by
`Remove 0 1` and nothing else. -/
theorem observer_attach_stream_witness :
    received (attach (runMuts (create ([1] : List Nat)) [Mut.push_back 2])).1
        (runMuts (attach (runMuts (create ([1] : List Nat)) [Mut.push_back 2])).2
          [Mut.remove 0 1])
      = some [ChangeRecord.Reset [1, 2], ChangeRecord.Remove 0 1] := by
  have h := (observer_attach_stream (create ([1] : List Nat)) (by decide)
    [Mut.push_back 2] [Mut.remove 0 1]).1
  rw [h]
  decide

/-- C8: detach is idempotent and always harmless — detaching twice equals
detaching once, detaching a never-attached handle is a no-op, detaching
after the LiveSequence is destroyed (all handles invalidated) is a no-op,
and a detached observer has no stream and receives no further deliveries
from subsequent mutations. -/
theorem detach_idempotent_noop (ls : LiveSequence α) (h : Nat) :
    detach h (detach h ls) = detach h ls
    ∧ ((∀ ob ∈ ls.observers, ob.1 ≠ h) → detach h ls = ls)
    ∧ detach h (destroy ls) = destroy ls
    ∧ received h (detach h ls) = none
    ∧ (∀ m, received h (applyMut (detach h ls) m) = none) := by
  have hnone : received h (detach h ls) = none := by
    have hfind : ((ls.observers.filter fun ob => ob.1 != h).find?
        fun ob => ob.1 == h) = none := by
      rw [List.find?_eq_none]
      intro x hx
      have hpx := List.of_mem_filter hx
      simp only [bne_iff_ne, ne_eq] at hpx
      simpa using hpx
    simp [received, detach, hfind]
  refine ⟨?_, ?_, rfl, hnone, fun m => ?_⟩
  · simp [detach, List.filter_filter, Bool.and_self]
  · intro hno
    have heq : (ls.observers.filter fun ob => ob.1 != h) = ls.observers :=
      List.filter_eq_self.mpr fun a ha => by simpa using hno a ha
    simp [detach, heq]
  · rw [received_applyMut, hnone]
    rfl

/-- Witness for C8 at a concrete input: one observer attached to `[5]`. -/
theorem detach_idempotent_noop_witness :
    detach 0 (detach 0 (attach (create ([5] : List Nat))).2)
      = detach 0 (attach (create ([5] : List Nat))).2
    ∧ detach 3 (attach (create ([5] : List Nat))).2
      = (attach (create ([5] : List Nat))).2
    ∧ received 0 (detach 0 (attach (create ([5] : List Nat))).2) = none
    ∧ received 0 (applyMut (detach 0 (attach (create ([5] : List Nat))).2)
        (Mut.push_back 7)) = none := by
  have h0 := detach_idempotent_noop (attach (create ([5] : List Nat))).2 0
  have h3 := detach_idempotent_noop (attach (create ([5] : List Nat))).2 3
  exact ⟨h0.1, h3.2.1 (by decide), h0.2.2.2.1, h0.2.2.2.2 (Mut.push_back 7)⟩

end LiveArray
